import Mathlib

/-
Verification of the workbench media processing graph engine.

This file gives a shallow embedding of the core data structures and
operations of the workbench repository (ring buffer, FFT scaling,
block/engine graph, port connection protocol, smoothing blocks,
octave smoother window precomputation, scale controller) and proves
properties of them. Each definition is translated from the Python
source file named in its doc comment.
-/

namespace Workbench

/-! ## MediaRingBuffer (core/helpers/media_ring_buffer.py)

The buffer state mirrors the dvg_ringbuffer representation used by
MediaRingBuffer: a fixed-capacity storage array indexed modulo the
capacity, with a left index (read cursor) and right index (write
cursor).  The logical length is idxR - idxL, the oldest element lives
at position idxL % capacity, and unwrapping reads length consecutive
positions starting there. -/

structure MediaRingBuffer (α : Type) where
  capacity : Nat
  idxL : Nat
  idxR : Nat
  arr : Nat → α

namespace MediaRingBuffer

/-- Logical number of stored samples, as in len(self) of the ring buffer. -/
def length (s : MediaRingBuffer α) : Nat := s.idxR - s.idxL

/-- The stored samples oldest first, as returned by the unwrap operation
of the underlying ring buffer. -/
def contents (s : MediaRingBuffer α) : List α :=
  (List.range s.length).map (fun i => s.arr ((s.idxL + i) % s.capacity))

/-- Well-formedness of a buffer state: the left index is always kept
below the capacity, the right index is at least the left one and the
logical length never exceeds the capacity. -/
def WF (s : MediaRingBuffer α) : Prop :=
  s.idxL < s.capacity ∧ s.idxL ≤ s.idxR ∧ s.idxR - s.idxL ≤ s.capacity

/-- Translation of the internal index fixup of the ring buffer: when the
left index has moved past the capacity, both indices are shifted down by
one capacity. -/
def fixIndices (s : MediaRingBuffer α) : MediaRingBuffer α :=
  if s.capacity ≤ s.idxL then
    { s with idxL := s.idxL - s.capacity, idxR := s.idxR - s.capacity }
  else s

/-- The buffer state after the successful branch of
MediaRingBuffer.reduce: the read cursor advances by n and the indices
are fixed up. -/
def reduceState (s : MediaRingBuffer α) (n : Nat) : MediaRingBuffer α :=
  fixIndices { s with idxL := s.idxL + n }

/-- Translation of MediaRingBuffer.reduce (media_ring_buffer.py lines
5 to 15).  If fewer than n samples are stored an IndexError is raised,
before any mutation, so the state is returned unchanged alongside the
error.  Otherwise the first n unwrapped samples are returned, the read
cursor advances by n and the indices are fixed up. -/
def reduce (s : MediaRingBuffer α) (n : Nat) :
    Except String (List α) × MediaRingBuffer α :=
  if s.length < n then
    (Except.error "Out of range", s)
  else
    (Except.ok (s.contents.take n), reduceState s n)

/-- Sequential writes of a list of samples into the storage array
starting at a given position, each taken modulo the capacity.  This is
how the underlying ring buffer stores appended samples. -/
def writeSeq (cap : Nat) (arr : Nat → α) (pos : Nat) : List α → (Nat → α)
  | [] => arr
  | x :: xs => writeSeq cap (Function.update arr (pos % cap) x) (pos + 1) xs

/-- Translation of the extend operation of the underlying ring buffer
with allow_overwrite disabled, as constructed by the FFT analyzer: if
the new samples do not fit in the free capacity an error is raised and
the state is unchanged; otherwise the samples are written after the
newest element and the write cursor advances. -/
def extend (s : MediaRingBuffer α) (xs : List α) :
    Except String Unit × MediaRingBuffer α :=
  if s.capacity < s.length + xs.length then
    (Except.error "Buffer overflow", s)
  else
    (Except.ok (),
      fixIndices
        { s with
          arr := writeSeq s.capacity s.arr s.idxR xs
          idxR := s.idxR + xs.length })

end MediaRingBuffer

/-! ## FFT analyzer scaling (core/blocks/fft_analyzer.py) -/

/-- Translation of the coherent gain computed by
FFTAnalyzer.createWindow at line 109: the sum of the analysis window
sample values. -/
def coherentGain (w : List ℝ) : ℝ := w.sum

/-- Number of bins of the one-sided FFT, fft_size // 2 + 1. -/
def fftBins (fftSize : Nat) : Nat := fftSize / 2 + 1

/-- Translation of the peak scaling computation of
FFTAnalyzer (fft_analyzer.py lines 122 to 131): every bin starts at
2 / coherent_gain, bin 0 is overwritten with 1 / coherent_gain, and
for an even FFT size the last bin is also overwritten with
1 / coherent_gain.  The channel dimension of the numpy array is a
broadcast of this single column and is omitted. -/
noncomputable def fftScalingPeak (fftSize : Nat) (cg : ℝ) : List ℝ :=
  let base := List.replicate (fftBins fftSize) (2 / cg)
  let withDC := base.set 0 (1 / cg)
  if fftSize % 2 = 0 then withDC.set (fftBins fftSize - 1) (1 / cg) else withDC

/-- Translation of the RMS scaling computation of
FFTAnalyzer (fft_analyzer.py lines 133 to 144): every bin starts at
sqrt 2 / coherent_gain, with the same DC and Nyquist overwrites as the
peak scaling. -/
noncomputable def fftScalingRms (fftSize : Nat) (cg : ℝ) : List ℝ :=
  let base := List.replicate (fftBins fftSize) (Real.sqrt 2 / cg)
  let withDC := base.set 0 (1 / cg)
  if fftSize % 2 = 0 then withDC.set (fftBins fftSize - 1) (1 / cg) else withDC

/-! ## Block and engine graph (core/base_blocks.py, core/processing_engine.py)

Blocks are modelled by their identity and the names of their ports, in
insertion order; this is all the engine level operations inspect. -/

structure BlockM where
  id : String
  name : String
  inputPorts : List String
  outputPorts : List String
deriving DecidableEq, Repr

namespace BlockM

/-- Translation of Block.is_producer (base_blocks.py lines 62 to 63):
true exactly when the block has at least one output port.  Input ports
are not consulted. -/
def isProducer (b : BlockM) : Bool := 0 < b.outputPorts.length

/-- Translation of Block.add_input_port (base_blocks.py lines 40 to
46).  A duplicate name is logged and the method returns normally with
the port map unchanged; no exception is raised, so the error component
of the result is never used. -/
def addInputPort (b : BlockM) (portName : String) : Except String BlockM :=
  if portName ∈ b.inputPorts then
    Except.ok b
  else
    Except.ok { b with inputPorts := b.inputPorts ++ [portName] }

/-- Translation of Block.add_output_port (base_blocks.py lines 48 to
54), identical in shape to addInputPort. -/
def addOutputPort (b : BlockM) (portName : String) : Except String BlockM :=
  if portName ∈ b.outputPorts then
    Except.ok b
  else
    Except.ok { b with outputPorts := b.outputPorts ++ [portName] }

end BlockM

/-- Translation of register_block (core/helpers/registry.py lines 4 to
15): the registry maps class names to classes; registering a name that
is already present raises a ValueError before the registry is touched,
otherwise the name is added. -/
def registerBlock (registry : List String) (clsName : String) :
    Except String (List String) :=
  if clsName ∈ registry then
    Except.error "Block type is already registered"
  else
    Except.ok (registry ++ [clsName])

/-- The engine block map is a Python dict with possibly-None keys, kept
in insertion order.  Keys are Option String because add_block uses the
raw block_id argument, which may be None, as the dict key. -/
def dictSet (m : List (Option String × BlockM)) (k : Option String)
    (v : BlockM) : List (Option String × BlockM) :=
  if m.any (fun kv => kv.1 = k) then
    m.map (fun kv => if kv.1 = k then (k, v) else kv)
  else
    m ++ [(k, v)]

/-- Lookup in the engine block map, dict.get semantics. -/
def dictGet (m : List (Option String × BlockM)) (k : Option String) :
    Option BlockM :=
  (m.find? (fun kv => kv.1 = k)).map (fun kv => kv.2)

structure EngineM where
  blocks : List (Option String × BlockM)
  producers : List BlockM
  isRunning : Bool
deriving Repr

namespace EngineM

def empty : EngineM := { blocks := [], producers := [], isRunning := false }

/-- Translation of ProcessingEngine.add_block (processing_engine.py
lines 15 to 25).  While running the call is logged and ignored.
Otherwise the effective id is the explicit block_id when given, else
the block's own id; the block's id attribute is set to it.  The block
is stored in the dict under the raw block_id argument, exactly as the
source line self dot blocks bracket block_id does, and appended to the
producer list when is_producer holds. -/
def addBlock (e : EngineM) (b : BlockM) (blockId : Option String) : EngineM :=
  if e.isRunning then e
  else
    let i := blockId.getD b.id
    let stored := { b with id := i }
    { e with
      blocks := dictSet e.blocks blockId stored
      producers :=
        if stored.isProducer then e.producers ++ [stored] else e.producers }

/-- Translation of ProcessingEngine.get_block_by_id (processing_engine.py
lines 61 to 64): a plain dict get under the given id. -/
def getBlockById (e : EngineM) (blockId : String) : Option BlockM :=
  dictGet e.blocks (some blockId)

/-- Translation of ProcessingEngine.start (processing_engine.py lines
119 to 128).  The second component lists the blocks on which start was
invoked, in order: exactly the recorded producers, or none when the
engine was already running. -/
def start (e : EngineM) : EngineM × List BlockM :=
  if e.isRunning then (e, [])
  else ({ e with isRunning := true }, e.producers)

end EngineM

/-! ## Port connection protocol (core/port.py)

The observable behaviour of the connection handshake is modelled as an
event trace.  A PortRef identifies an input port by its owning block
and port name; OutputPortM keeps the current format and the list of
subscribed input ports in blinker subscription order; forwarding a
signal to a subscriber invokes the owner callback of that input port,
which is recorded as an event.  The format type mu and the data type
delta are opaque payloads. -/

structure PortRef where
  owner : String
  port : String
deriving DecidableEq, Repr

inductive PortEvent (μ : Type) (δ : Type) where
  | formatNotify (receiver : PortRef) (payload : Option μ)
  | dataNotify (receiver : PortRef) (payload : δ)

structure OutputPortM (μ : Type) (δ : Type) where
  owner : String
  name : String
  mediaInfo : Option μ
  receivers : List PortRef

structure InputPortM (μ : Type) where
  owner : String
  name : String
  mediaInfo : Option μ
  connected : Bool

/-- Translation of OutputPort.update_format (port.py lines 38 to 40):
the new format is stored and the format signal is sent to every
subscribed input port, whose handler invokes on_format_received on its
owner; each such delivery is one formatNotify event, in subscription
order. -/
def updateFormat (p : OutputPortM μ δ) (mi : Option μ) :
    OutputPortM μ δ × List (PortEvent μ δ) :=
  ({ p with mediaInfo := mi },
    p.receivers.map (fun r => PortEvent.formatNotify r mi))

/-- Translation of OutputPort.send_data (port.py lines 35 to 36): the
data signal is sent to every subscribed input port, whose handler
invokes on_input_received on its owner. -/
def sendData (p : OutputPortM μ δ) (d : δ) : List (PortEvent μ δ) :=
  p.receivers.map (fun r => PortEvent.dataNotify r d)

/-- Translation of InputPort.connect (port.py lines 50 to 64) composed
with OutputPort.on_connect (port.py lines 29 to 33), for an input port
with no existing connection (when one exists the source first
disconnects it, which removes a subscription from the old output port
and emits nothing).  Steps, in source order: the input port subscribes
to the data and format signals of the output port (appending it to the
subscriber list); on_connect on the input owner only logs; the connect
signal reaches OutputPort.on_connect, whose owner callback only logs
and which then calls update_format with the current format, notifying
every subscriber including the new one.  The new input port stores the
delivered format, even when it is none. -/
def inputConnect (inp : InputPortM μ) (outp : OutputPortM μ δ) :
    InputPortM μ × OutputPortM μ δ × List (PortEvent μ δ) :=
  let outp1 :=
    { outp with receivers := outp.receivers ++ [PortRef.mk inp.owner inp.name] }
  let stepped := updateFormat outp1 outp1.mediaInfo
  ({ inp with connected := true, mediaInfo := outp.mediaInfo },
    stepped.1, stepped.2)

/-- True for a format notification delivered through the input port
identified by r. -/
def isFormatNotifyTo (r : PortRef) : PortEvent μ δ → Bool
  | PortEvent.formatNotify r2 _ => r2 = r
  | PortEvent.dataNotify _ _ => false

/-- True for any data notification. -/
def isDataNotify : PortEvent μ δ → Bool
  | PortEvent.dataNotify _ _ => true
  | PortEvent.formatNotify _ _ => false

/-! ## Smoothing blocks (core/blocks/spectral_denoiser.py,
core/blocks/curve_smoother.py)

Both blocks run a numerical fit per channel that can raise; the fit is
abstracted as a function returning Except.  A frame is a list of
channel traces (the transpose of the numpy array, which is indexed
bin first, channel second). -/

/-- Per-channel smoothing shared by both blocks: the DC bin (index 0)
is excluded from the fit and passed through in front of the fitted
remainder.  An empty trace makes the indexing of bin 0 itself raise,
which the same except handler catches. -/
def smoothChannelWith (fit : List ℚ → Except String (List ℚ)) :
    List ℚ → Except String (List ℚ)
  | [] => Except.error "index out of range"
  | t :: rest => (fit rest).map (fun sm => t :: sm)

/-- Translation of SpectralDenoiser.on_input_received (spectral_denoiser.py
lines 64 to 102): all channels are fitted inside one try block; if any
channel raises, the handler logs and replaces the whole output with the
input frame, which is then sent.  The result is the frame pushed on the
out-clean port. -/
def denoiserOnInput (fit : List ℚ → Except String (List ℚ))
    (frame : List (List ℚ)) : List (List ℚ) :=
  match frame.mapM (smoothChannelWith fit) with
  | Except.ok out => out
  | Except.error _ => frame

/-- Translation of CurveSmoother.process_frame (curve_smoother.py lines
125 to 166): channels are fitted one by one; the per-channel except
handler executes a bare return, so on the first failure the method
exits without sending anything and the frame is dropped (the
pass-through assignment after the return is unreachable).  On success
the dB floor is applied as a lower clip and the frame is sent; none
models the dropped frame. -/
def curveSmootherProcessFrame (fit : List ℚ → Except String (List ℚ))
    (dbFloor : ℚ) (frame : List (List ℚ)) : Option (List (List ℚ)) :=
  match frame.mapM (smoothChannelWith fit) with
  | Except.ok out => some (out.map (fun ch => ch.map (fun v => max v dbFloor)))
  | Except.error _ => none

/-- A fit that always fails, standing for a Savitzky-Golay or spline
call that raises on its input. -/
def failingFit : List ℚ → Except String (List ℚ) :=
  fun _ => Except.error "fit failed"

/-! ## Octave smoother window precomputation (core/blocks/octave_smoother.py) -/

/-- Translation of the relative width factor of
OctaveSmoother.on_format_received at line 50:
alpha is 2 to the power bw / 2 minus 2 to the power minus bw / 2. -/
noncomputable def octaveAlpha (bw : ℝ) : ℝ :=
  (2 : ℝ) ^ (bw / 2) - (2 : ℝ) ^ (-(bw / 2))

/-- Translation of the half width precomputation of
OctaveSmoother.on_format_received (octave_smoother.py lines 47 to 56):
per bin k the width is k times alpha, clamped below by 3.0, and the
half width is the floor of half of that, per numpy floor and int cast. -/
noncomputable def octaveHalfWidths (bw : ℝ) (nBins : Nat) : List ℤ :=
  (List.range nBins).map
    (fun k : Nat => ⌊max ((k : ℝ) * octaveAlpha bw) 3 / 2⌋)

/-- The half width formula as the spec states it, for comparison with
the source computation: the maximum of 3 and the floor of k times alpha
over 2. -/
noncomputable def specOctaveHalfWidth (bw : ℝ) (k : Nat) : ℤ :=
  max 3 ⌊(k : ℝ) * octaveAlpha bw / 2⌋

/-! ## Scale controller automatic mode (core/helpers/scale_controller.py) -/

structure AutoScaleState where
  currentAutoMin : Option ℚ
  currentAutoMax : Option ℚ
deriving DecidableEq, Repr

/-- Maximum of a data frame, numpy max of a nonempty array. -/
def npMax (data : List ℚ) : ℚ := data.foldl max (data.headD 0)

/-- Minimum of a data frame, numpy min of a nonempty array. -/
def npMin (data : List ℚ) : ℚ := data.foldl min (data.headD 0)

/-- Translation of ScaleController.calculate_automatic_limits
(scale_controller.py lines 109 to 128).  On the first frame the limits
are stored and emitted immediately.  Afterwards the deviations are
normalized against the current bounds, with a bound of zero replaced by
one as the Python or-expression does, and a range change is emitted
with the exact new minimum and maximum exactly when the maximum
deviation exceeds 0.2 or the minimum deviation is below minus 0.2; only
then are the stored bounds replaced.  The second component is the
emission of range_changed, if any. -/
def calcAutomaticLimits (s : AutoScaleState) (data : List ℚ) :
    AutoScaleState × Option (ℚ × ℚ) :=
  let maxVal := npMax data
  let minVal := npMin data
  match s.currentAutoMax, s.currentAutoMin with
  | some cmax, some cmin =>
    let maxDev := (maxVal - cmax) / (if cmax = 0 then 1 else cmax)
    let minDev := (minVal - cmin) / (if cmin = 0 then 1 else cmin)
    if maxDev > 1 / 5 ∨ minDev < -(1 / 5) then
      (⟨some minVal, some maxVal⟩, some (minVal, maxVal))
    else
      (s, none)
  | _, _ => (⟨some minVal, some maxVal⟩, some (minVal, maxVal))

/-- Feeding a sequence of frames through the automatic mode, collecting
all range change emissions in order. -/
def runAutomatic (s : AutoScaleState) (frames : List (List ℚ)) :
    AutoScaleState × List (ℚ × ℚ) :=
  frames.foldl
    (fun acc f =>
      let r := calcAutomaticLimits acc.1 f
      (r.1, acc.2 ++ r.2.toList))
    (s, [])

/-! ## Concrete instances used by counterexamples and witnesses -/

/-- The port layout of FFTAnalyzer as declared by its define_ports
decorator (fft_analyzer.py line 19): one input port and four output
ports. -/
def fftPortsBlock : BlockM :=
  { id := "fft1", name := "fft"
    inputPorts := ["in"]
    outputPorts := ["out-abs-peak", "out-db-peak", "out-abs-rms", "out-db-rms"] }

/-- A block that already owns an input port named in and an output port
named out. -/
def dupPortBlock : BlockM :=
  { id := "b1", name := "blk", inputPorts := ["in"], outputPorts := ["out"] }

/-- True when a call outcome is a raised exception. -/
def raisesError {ε : Type} {α : Type} : Except ε α → Bool
  | Except.error _ => true
  | Except.ok _ => false

/-- A concrete wrapped ring buffer over Nat samples: capacity 4, read
cursor 3, write cursor 5, so it holds the two samples stored at
positions 3 and 0 of the backing array. -/
def demoBuffer : MediaRingBuffer Nat :=
  { capacity := 4, idxL := 3, idxR := 5, arr := fun i => i }

/-! ## Theorems -/

/-- Two distinct indices lying in a window shorter than the capacity
occupy distinct storage positions. -/
theorem mod_ne_of_window (cap a b : Nat) (hab : a < b) (hw : b - a < cap) :
    a % cap ≠ b % cap := by
  intro h
  have hmod : Nat.ModEq cap a b := h
  have hdvd : cap ∣ b - a := (Nat.modEq_iff_dvd' (Nat.le_of_lt hab)).mp hmod
  have hpos : 0 < b - a := by omega
  have := Nat.le_of_dvd hpos hdvd
  omega

/-- The index fixup does not change the stored sample sequence. -/
theorem contents_fixIndices {α : Type} (s : MediaRingBuffer α)
    (hLR : s.idxL ≤ s.idxR) :
    s.fixIndices.contents = s.contents := by
  unfold MediaRingBuffer.fixIndices
  split
  case isTrue h =>
    unfold MediaRingBuffer.contents MediaRingBuffer.length
    dsimp only
    have hlen : s.idxR - s.capacity - (s.idxL - s.capacity) =
        s.idxR - s.idxL := by omega
    rw [hlen]
    apply List.map_congr_left
    intro i hi
    have hi2 := List.mem_range.mp hi
    have e1 : s.idxL - s.capacity + i = s.idxL + i - s.capacity := by omega
    rw [e1, ← Nat.mod_eq_sub_mod (by omega)]
  case isFalse h => rfl

/-- The index fixup does not change the logical length. -/
theorem length_fixIndices {α : Type} (s : MediaRingBuffer α)
    (hLR : s.idxL ≤ s.idxR) :
    s.fixIndices.length = s.length := by
  unfold MediaRingBuffer.fixIndices MediaRingBuffer.length
  split
  all_goals dsimp only
  all_goals omega

/-- A buffer whose read cursor is already below the capacity is left
untouched by the index fixup. -/
theorem fixIndices_of_lt {α : Type} (s : MediaRingBuffer α)
    (h : s.idxL < s.capacity) : s.fixIndices = s := by
  unfold MediaRingBuffer.fixIndices
  rw [if_neg (not_le.mpr h)]

/-- Advancing the read cursor by n drops the n oldest samples. -/
theorem contents_reduceState {α : Type} (s : MediaRingBuffer α) (n : Nat)
    (hLR : s.idxL ≤ s.idxR) (hn : n ≤ s.length) :
    (s.reduceState n).contents = s.contents.drop n := by
  have hn2 : n ≤ s.idxR - s.idxL := hn
  unfold MediaRingBuffer.reduceState
  rw [contents_fixIndices _ (by dsimp only; omega)]
  unfold MediaRingBuffer.contents MediaRingBuffer.length
  dsimp only
  rw [← List.map_drop]
  have hsplit : s.idxR - s.idxL = n + (s.idxR - s.idxL - n) := by omega
  rw [hsplit, List.range_add, List.drop_left' (by simp), List.map_map]
  have hlen2 : s.idxR - (s.idxL + n) = s.idxR - s.idxL - n := by omega
  rw [hlen2]
  apply List.map_congr_left
  intro i hi
  simp only [Function.comp]
  congr 2
  omega

/-- Advancing the read cursor by n decreases the logical length by n. -/
theorem length_reduceState {α : Type} (s : MediaRingBuffer α) (n : Nat)
    (hLR : s.idxL ≤ s.idxR) (hn : n ≤ s.length) :
    (s.reduceState n).length = s.length - n := by
  have hn2 : n ≤ s.idxR - s.idxL := hn
  unfold MediaRingBuffer.reduceState
  rw [length_fixIndices _ (by dsimp only; omega)]
  unfold MediaRingBuffer.length
  dsimp only
  omega

/-- C1: on a well-formed buffer, reduce with n at most the current
length returns exactly the n oldest stored samples in insertion order,
the remaining contents are the rest of the stored samples, and the
length decreases by n; reduce with n greater than the current length
returns the out of range IndexError raised before any mutation, leaving
the buffer state unchanged. -/
theorem mediaRingBuffer_reduce_spec {α : Type} (s : MediaRingBuffer α)
    (n : Nat) (hwf : s.WF) :
    (n ≤ s.length →
      (s.reduce n).1 = Except.ok (s.contents.take n) ∧
      (s.reduce n).2.contents = s.contents.drop n ∧
      (s.reduce n).2.length = s.length - n) ∧
    (s.length < n →
      (s.reduce n).1 = Except.error "Out of range" ∧
      (s.reduce n).2 = s) := by
  obtain ⟨h1, h2, h3⟩ := hwf
  constructor
  · intro hn
    have hlt : ¬ s.length < n := not_lt.mpr hn
    unfold MediaRingBuffer.reduce
    rw [if_neg hlt]
    exact ⟨rfl, contents_reduceState s n h2 hn, length_reduceState s n h2 hn⟩
  · intro hn
    unfold MediaRingBuffer.reduce
    rw [if_pos hn]
    exact ⟨rfl, rfl⟩

/-- Witness for C1 at a concrete input: the wrapped demo buffer holding
two samples, with a valid consume of one sample and a failing consume
of three. -/
theorem mediaRingBuffer_reduce_spec_witness :
    MediaRingBuffer.WF demoBuffer ∧
    (demoBuffer.reduce 1).1 = Except.ok (demoBuffer.contents.take 1) ∧
    (demoBuffer.reduce 1).2.contents = demoBuffer.contents.drop 1 ∧
    (demoBuffer.reduce 1).2.length = demoBuffer.length - 1 ∧
    (demoBuffer.reduce 3).1 = Except.error "Out of range" ∧
    (demoBuffer.reduce 3).2 = demoBuffer := by
  have hwf : MediaRingBuffer.WF demoBuffer := by
    unfold MediaRingBuffer.WF demoBuffer
    refine ⟨?_, ?_, ?_⟩ <;> norm_num
  have hA := (mediaRingBuffer_reduce_spec demoBuffer 1 hwf).1
    (by norm_num [MediaRingBuffer.length, demoBuffer])
  have hB := (mediaRingBuffer_reduce_spec demoBuffer 3 hwf).2
    (by norm_num [MediaRingBuffer.length, demoBuffer])
  exact ⟨hwf, hA.1, hA.2.1, hA.2.2, hB.1, hB.2⟩

/-- Positions written by a sequential write run are the only ones that
change: any position missed by every write keeps its old sample. -/
theorem writeSeq_preserved {α : Type} (cap : Nat) :
    ∀ (xs : List α) (arr : Nat → α) (pos p : Nat),
      (∀ i, i < xs.length → (pos + i) % cap ≠ p) →
      MediaRingBuffer.writeSeq cap arr pos xs p = arr p := by
  intro xs
  induction xs with
  | nil => intro arr pos p _; rfl
  | cons x t ih =>
    intro arr pos p h
    rw [MediaRingBuffer.writeSeq]
    rw [ih (Function.update arr (pos % cap) x) (pos + 1) p ?_]
    · apply Function.update_noteq
      have h0 := h 0 (by simp)
      simpa using h0.symm
    · intro i hi
      have := h (i + 1) (by simpa using Nat.succ_lt_succ hi)
      rw [show pos + 1 + i = pos + (i + 1) by omega]
      exact this

/-- Reading back a position written by a sequential write run that fits
within one capacity window yields the sample written there. -/
theorem writeSeq_get {α : Type} (cap : Nat) :
    ∀ (xs : List α) (arr : Nat → α) (pos j : Nat) (hj : j < xs.length),
      xs.length ≤ cap →
      MediaRingBuffer.writeSeq cap arr pos xs ((pos + j) % cap) =
        xs.get ⟨j, hj⟩ := by
  intro xs
  induction xs with
  | nil => intro arr pos j hj _; exact absurd hj (by simp)
  | cons x t ih =>
    intro arr pos j hj hlen
    have hlen2 : t.length + 1 ≤ cap := by simpa using hlen
    rw [MediaRingBuffer.writeSeq]
    cases j with
    | zero =>
      rw [writeSeq_preserved cap t _ (pos + 1) _ ?_]
      · simp [Function.update_same]
      · intro i hi
        have hne : (pos + 0) % cap ≠ (pos + 1 + i) % cap := by
          apply mod_ne_of_window cap (pos + 0) (pos + 1 + i) (by omega)
            (by omega)
        simpa using hne.symm
    | succ j2 =>
      have e : pos + (j2 + 1) = (pos + 1) + j2 := by omega
      rw [e, ih (Function.update arr (pos % cap) x) (pos + 1) j2
        (by simpa using hj) (by omega)]
      rfl

/-- Appending samples that fit in the free capacity extends the stored
sample sequence at the newest end, so the contents list is always the
stored samples in insertion order, oldest first. -/
theorem mediaRingBuffer_extend_contents {α : Type} (s : MediaRingBuffer α)
    (xs : List α) (hwf : s.WF) (hfit : s.length + xs.length ≤ s.capacity) :
    (s.extend xs).1 = Except.ok () ∧
    (s.extend xs).2.contents = s.contents ++ xs := by
  obtain ⟨h1, h2, h3⟩ := hwf
  have hfit2 : (s.idxR - s.idxL) + xs.length ≤ s.capacity := hfit
  have hnot : ¬ s.capacity < s.length + xs.length := not_lt.mpr hfit
  unfold MediaRingBuffer.extend
  rw [if_neg hnot]
  refine ⟨rfl, ?_⟩
  have hfix := fixIndices_of_lt
    { s with
      arr := MediaRingBuffer.writeSeq s.capacity s.arr s.idxR xs
      idxR := s.idxR + xs.length } h1
  rw [hfix]
  unfold MediaRingBuffer.contents MediaRingBuffer.length
  dsimp only
  have hlen : s.idxR + xs.length - s.idxL = (s.idxR - s.idxL) + xs.length := by
    omega
  rw [hlen, List.range_add, List.map_append]
  congr 1
  · apply List.map_congr_left
    intro i hi
    have hi2 := List.mem_range.mp hi
    apply writeSeq_preserved
    intro j hj
    have hne : (s.idxL + i) % s.capacity ≠ (s.idxR + j) % s.capacity := by
      apply mod_ne_of_window s.capacity (s.idxL + i) (s.idxR + j)
        (by omega) (by omega)
    exact hne.symm
  · apply List.ext_getElem (by simp)
    intro j hj1 hj2
    have hj3 : j < xs.length := by simpa using hj2
    simp only [List.getElem_map, List.getElem_range]
    have e : s.idxL + ((s.idxR - s.idxL) + j) = s.idxR + j := by omega
    rw [e]
    have hw := writeSeq_get s.capacity xs s.arr s.idxR j hj3 (by omega)
    rw [hw]
    rfl

/-- The full event trace of a connect: the output port re-sends its
current format to every subscriber, the previously connected input
ports first and the newly connected one last. -/
theorem inputConnect_events {μ δ : Type} (inp : InputPortM μ)
    (outp : OutputPortM μ δ) :
    (inputConnect inp outp).2.2 =
      (outp.receivers ++ [PortRef.mk inp.owner inp.name]).map
        (fun r => PortEvent.formatNotify r outp.mediaInfo) := rfl

/-- C10: completing any connect of an input port to an output port
makes the output port unconditionally re-publish its current format to
all of its subscribed input ports: each previously connected input port
receives an additional format notification, and the new subscriber
receives one as well, both carrying the current format even when it is
none. -/
theorem connect_republishes_format_to_all {μ δ : Type}
    (inp : InputPortM μ) (outp : OutputPortM μ δ) :
    (inputConnect inp outp).2.2 =
      (outp.receivers ++ [PortRef.mk inp.owner inp.name]).map
        (fun r => PortEvent.formatNotify r outp.mediaInfo) :=
  inputConnect_events inp outp

/-- C5: when an input port connects to an output port whose current
format is non-null, the connect handshake itself delivers exactly one
format notification through that input port to its owner, carrying the
current format of the output port, and delivers no data notification at
all, so the format notification arrives before any data notification on
that connection. -/
theorem connect_delivers_format_before_data {μ δ : Type}
    (inp : InputPortM μ) (outp : OutputPortM μ δ) (f : μ)
    (hf : outp.mediaInfo = some f)
    (hnew : PortRef.mk inp.owner inp.name ∉ outp.receivers) :
    ((inputConnect inp outp).2.2.filter
        (isFormatNotifyTo (PortRef.mk inp.owner inp.name))) =
      [PortEvent.formatNotify (PortRef.mk inp.owner inp.name) (some f)] ∧
    ((inputConnect inp outp).2.2.filter isDataNotify) = [] := by
  constructor
  · rw [inputConnect_events, hf, List.map_append, List.filter_append]
    have h1 : ((outp.receivers.map
        (fun r => PortEvent.formatNotify (μ := μ) (δ := δ) r (some f))).filter
          (isFormatNotifyTo (PortRef.mk inp.owner inp.name))) = [] := by
      rw [List.filter_eq_nil_iff]
      intro e he
      obtain ⟨r, hr, rfl⟩ := List.mem_map.mp he
      simp only [isFormatNotifyTo, decide_eq_true_eq]
      intro he2
      exact hnew (he2 ▸ hr)
    rw [h1]
    simp [isFormatNotifyTo]
  · rw [inputConnect_events, hf]
    rw [List.filter_eq_nil_iff]
    intro e he
    obtain ⟨r, hr, rfl⟩ := List.mem_map.mp he
    simp [isDataNotify]

/-- Witness for C5 at a concrete input: a smoother input port connects
to an analyzer output port that already carries format 7 and has no
other subscriber. -/
theorem connect_delivers_format_before_data_witness :
    ((inputConnect (⟨"smoother", "in-db", none, false⟩ : InputPortM Nat)
        (⟨"analyzer", "out-db-peak", some 7, []⟩ : OutputPortM Nat Nat)).2.2.filter
        (isFormatNotifyTo (PortRef.mk "smoother" "in-db"))) =
      [PortEvent.formatNotify (PortRef.mk "smoother" "in-db") (some 7)] ∧
    ((inputConnect (⟨"smoother", "in-db", none, false⟩ : InputPortM Nat)
        (⟨"analyzer", "out-db-peak", some 7, []⟩ : OutputPortM Nat Nat)).2.2.filter
        isDataNotify) = [] :=
  connect_delivers_format_before_data
    (⟨"smoother", "in-db", none, false⟩ : InputPortM Nat)
    (⟨"analyzer", "out-db-peak", some 7, []⟩ : OutputPortM Nat Nat) 7 rfl
    (List.not_mem_nil _)

/-- C3 counterexample: the FFT analyzer port layout has an input port
and four output ports; is_producer nevertheless classifies it as a
producer, and after adding it the engine start call starts exactly this
block, refuting that producers are the blocks with no input ports and
that blocks with both kinds of ports are not started directly. -/
theorem is_producer_ignores_input_ports :
    BlockM.isProducer fftPortsBlock = true ∧
    fftPortsBlock.inputPorts = ["in"] ∧
    (EngineM.start
        (EngineM.addBlock EngineM.empty fftPortsBlock (some "fft1"))).2 =
      [fftPortsBlock] :=
  ⟨rfl, rfl, rfl⟩

/-- C3 (amended): a block is classified as a producer exactly when it
has at least one output port, regardless of its input ports; adding a
block to a stopped engine records it in the producer list exactly in
that case, and the engine start call starts exactly the recorded
producers, so a block with both input and output ports, such as the FFT
analyzer, is started directly by start. -/
theorem engine_starts_blocks_with_outputs (b : BlockM) (e : EngineM)
    (bid : Option String) (h : e.isRunning = false) :
    (BlockM.isProducer b = true ↔ b.outputPorts ≠ []) ∧
    (EngineM.addBlock e b bid).producers =
      (if BlockM.isProducer b then
        e.producers ++ [{ b with id := bid.getD b.id }]
       else e.producers) ∧
    (EngineM.start (EngineM.addBlock e b bid)).2 =
      (EngineM.addBlock e b bid).producers := by
  refine ⟨?_, ?_, ?_⟩
  · simp [BlockM.isProducer, List.length_pos]
  · simp [EngineM.addBlock, BlockM.isProducer, h]
  · simp [EngineM.addBlock, EngineM.start, h]

/-- Witness for C3 (amended) at a concrete input: the FFT analyzer port
layout added to the empty engine. -/
theorem engine_starts_blocks_with_outputs_witness :
    (BlockM.isProducer fftPortsBlock = true ↔
      fftPortsBlock.outputPorts ≠ []) ∧
    (EngineM.addBlock EngineM.empty fftPortsBlock (some "fft1")).producers =
      (if BlockM.isProducer fftPortsBlock then
        EngineM.empty.producers ++
          [{ fftPortsBlock with id := (some "fft1").getD fftPortsBlock.id }]
       else EngineM.empty.producers) ∧
    (EngineM.start
        (EngineM.addBlock EngineM.empty fftPortsBlock (some "fft1"))).2 =
      (EngineM.addBlock EngineM.empty fftPortsBlock (some "fft1")).producers :=
  engine_starts_blocks_with_outputs fftPortsBlock EngineM.empty (some "fft1") rfl

/-- C4: evaluating add_block at the failing input: adding a block whose
own id is b1 with block_id omitted stores the block in the dict under
the key None, because the source indexes the dict with the raw block_id
argument instead of the computed id it logs and assigns to the block;
get_block_by_id under b1 therefore finds nothing. -/
theorem addBlock_without_id_not_retrievable :
    EngineM.getBlockById
        (EngineM.addBlock EngineM.empty
          { id := "b1", name := "gen", inputPorts := [], outputPorts := ["out"] }
          none)
        "b1" = none ∧
    dictGet
        (EngineM.addBlock EngineM.empty
          { id := "b1", name := "gen", inputPorts := [], outputPorts := ["out"] }
          none).blocks
        none =
      some { id := "b1", name := "gen", inputPorts := [], outputPorts := ["out"] } :=
  ⟨rfl, rfl⟩

/-- C6: evaluating both smoothing blocks at a frame on which the
numerical fit raises: the spectral denoiser catches the failure and
sends the input frame through unmodified, but the curve smoother except
handler executes a bare return, so it sends nothing and the frame is
dropped; the pass-through assignment written after that return is
unreachable. -/
theorem curveSmoother_drops_frame_on_fit_failure :
    denoiserOnInput failingFit [[0, -10, -20]] = [[0, -10, -20]] ∧
    curveSmootherProcessFrame failingFit (-120) [[0, -10, -20]] = none :=
  ⟨rfl, rfl⟩

/-- C9 counterexample: adding the duplicate input port name in, or the
duplicate output port name out, to a block that already has it does not
raise: the call returns normally and the block is unchanged, refuting
that duplicate port names are fatal at setup time. -/
theorem duplicate_port_is_swallowed :
    raisesError (BlockM.addInputPort dupPortBlock "in") = false ∧
    BlockM.addInputPort dupPortBlock "in" = Except.ok dupPortBlock ∧
    raisesError (BlockM.addOutputPort dupPortBlock "out") = false ∧
    BlockM.addOutputPort dupPortBlock "out" = Except.ok dupPortBlock :=
  ⟨rfl, rfl, rfl, rfl⟩

/-- C9 (amended): registering a block type whose name is already in the
registry raises a ValueError and leaves the registry unchanged, since
the raise precedes the insertion; adding an input or output port whose
name already exists on the block in that direction does not raise: the
error is logged and swallowed and the block, with its existing port, is
left unchanged. -/
theorem structural_error_policy (reg : List String) (cls : String)
    (b : BlockM) (pIn pOut : String)
    (hc : cls ∈ reg) (hi : pIn ∈ b.inputPorts) (ho : pOut ∈ b.outputPorts) :
    registerBlock reg cls = Except.error "Block type is already registered" ∧
    BlockM.addInputPort b pIn = Except.ok b ∧
    BlockM.addOutputPort b pOut = Except.ok b := by
  refine ⟨?_, ?_, ?_⟩ <;>
    simp [registerBlock, BlockM.addInputPort, BlockM.addOutputPort, hc, hi, ho]

/-- Witness for C9 (amended) at concrete inputs: re-registering an
already registered class name and re-adding existing port names. -/
theorem structural_error_policy_witness :
    registerBlock ["SignalGenerator"] "SignalGenerator" =
      Except.error "Block type is already registered" ∧
    BlockM.addInputPort dupPortBlock "in" = Except.ok dupPortBlock ∧
    BlockM.addOutputPort dupPortBlock "out" = Except.ok dupPortBlock :=
  structural_error_policy ["SignalGenerator"] "SignalGenerator" dupPortBlock
    "in" "out" (by decide) (by decide) (by decide)

/-- Entry k of a constant spectrum column after the DC overwrite at
index 0 and the conditional Nyquist overwrite at the last index, the
shape shared by both scaling computations of the FFT analyzer. -/
theorem getD_dc_overwrites (m : Nat) (v dc : ℝ) (p : Prop) [Decidable p]
    (k : Nat) (hk : k < m) :
    (if p then ((List.replicate m v).set 0 dc).set (m - 1) dc
     else (List.replicate m v).set 0 dc).getD k 0 =
      (if k = 0 ∨ (p ∧ k = m - 1) then dc else v) := by
  split
  case isTrue hp =>
    rw [List.getD_eq_getElem?_getD,
      List.getElem?_eq_getElem (by simpa using hk), Option.getD_some,
      List.getElem_set]
    by_cases hkm : m - 1 = k
    · rw [if_pos hkm, if_pos (Or.inr ⟨hp, hkm.symm⟩)]
    · rw [if_neg hkm, List.getElem_set]
      by_cases hk0 : 0 = k
      · rw [if_pos hk0, if_pos (Or.inl hk0.symm)]
      · rw [if_neg hk0, List.getElem_replicate, if_neg]
        rintro (h0 | ⟨_, hm⟩)
        · exact hk0 h0.symm
        · exact hkm hm.symm
  case isFalse hp =>
    rw [List.getD_eq_getElem?_getD,
      List.getElem?_eq_getElem (by simpa using hk), Option.getD_some,
      List.getElem_set]
    by_cases hk0 : 0 = k
    · rw [if_pos hk0, if_pos (Or.inl hk0.symm)]
    · rw [if_neg hk0, List.getElem_replicate, if_neg]
      rintro (h0 | ⟨hpp, _⟩)
      · exact hk0 h0.symm
      · exact hp hpp

/-- C2: for every FFT size and every analysis window, with the coherent
gain defined as the sum of the window samples, the peak scaling factor
of every bin is 2 over the coherent gain except bin 0 and, for an even
FFT size, the last bin, which both use 1 over the coherent gain; the
RMS scaling factor of every bin equals the peak factor divided by the
square root of 2, with the same two bins using 1 over the coherent
gain instead. -/
theorem fft_scaling_spec (fftSize : Nat) (w : List ℝ) (k : Nat)
    (hk : k < fftBins fftSize) :
    coherentGain w = w.sum ∧
    (fftScalingPeak fftSize (coherentGain w)).getD k 0 =
      (if k = 0 ∨ (fftSize % 2 = 0 ∧ k = fftSize / 2) then
        1 / coherentGain w
       else 2 / coherentGain w) ∧
    (fftScalingRms fftSize (coherentGain w)).getD k 0 =
      (if k = 0 ∨ (fftSize % 2 = 0 ∧ k = fftSize / 2) then
        1 / coherentGain w
       else (fftScalingPeak fftSize (coherentGain w)).getD k 0 /
         Real.sqrt 2) := by
  set cg := coherentGain w with hcg
  have hbins : fftBins fftSize - 1 = fftSize / 2 := by
    simp [fftBins]
  have hpeak : (fftScalingPeak fftSize cg).getD k 0 =
      (if k = 0 ∨ (fftSize % 2 = 0 ∧ k = fftSize / 2) then 1 / cg
       else 2 / cg) := by
    unfold fftScalingPeak
    rw [getD_dc_overwrites (fftBins fftSize) (2 / cg) (1 / cg)
        (fftSize % 2 = 0) k hk, hbins]
  have hrms : (fftScalingRms fftSize cg).getD k 0 =
      (if k = 0 ∨ (fftSize % 2 = 0 ∧ k = fftSize / 2) then 1 / cg
       else Real.sqrt 2 / cg) := by
    unfold fftScalingRms
    rw [getD_dc_overwrites (fftBins fftSize) (Real.sqrt 2 / cg) (1 / cg)
        (fftSize % 2 = 0) k hk, hbins]
  refine ⟨rfl, hpeak, ?_⟩
  rw [hrms, hpeak]
  by_cases hc : k = 0 ∨ (fftSize % 2 = 0 ∧ k = fftSize / 2)
  · rw [if_pos hc, if_pos hc]
  · rw [if_neg hc, if_neg hc, if_neg hc]
    have hs : Real.sqrt 2 ≠ 0 := by positivity
    have h2 : Real.sqrt 2 * Real.sqrt 2 = 2 := Real.mul_self_sqrt (by norm_num)
    by_cases hcg0 : cg = 0
    · rw [hcg0]
      simp
    · field_simp
      linear_combination cg * h2

/-- Witness for C2 at a concrete input: FFT size 2, the rectangular
window of length 2, and the Nyquist bin 1. -/
theorem fft_scaling_spec_witness :
    coherentGain [1, 1] = List.sum [1, 1] ∧
    (fftScalingPeak 2 (coherentGain [1, 1])).getD 1 0 =
      (if 1 = 0 ∨ (2 % 2 = 0 ∧ 1 = 2 / 2) then 1 / coherentGain [1, 1]
       else 2 / coherentGain [1, 1]) ∧
    (fftScalingRms 2 (coherentGain [1, 1])).getD 1 0 =
      (if 1 = 0 ∨ (2 % 2 = 0 ∧ 1 = 2 / 2) then 1 / coherentGain [1, 1]
       else (fftScalingPeak 2 (coherentGain [1, 1])).getD 1 0 /
         Real.sqrt 2) :=
  fft_scaling_spec 2 [1, 1] 1 (by decide)

/-- C7 counterexample: at bandwidth 2, where alpha is exactly 3 / 2,
the precomputed half-width of bin 1 is floor(max(3/2, 3) / 2) = 1,
while the formula of the claim gives max(3, floor(3/4)) = 3. -/
theorem octave_half_width_counterexample :
    (octaveHalfWidths 2 2).getD 1 0 = 1 ∧ specOctaveHalfWidth 2 1 = 3 := by
  have h1 : ((2 : ℝ) / 2) = 1 := by norm_num
  have halpha : octaveAlpha 2 = 3 / 2 := by
    unfold octaveAlpha
    rw [h1, Real.rpow_one, Real.rpow_neg_one]
    norm_num
  constructor
  · unfold octaveHalfWidths
    rw [List.getD_eq_getElem?_getD, List.getElem?_map,
      List.getElem?_range (by norm_num : (1 : Nat) < 2)]
    show ⌊max (((1 : Nat) : ℝ) * octaveAlpha 2) 3 / 2⌋ = 1
    rw [halpha]
    have hmax : max (((1 : Nat) : ℝ) * (3 / 2)) 3 = 3 := by
      rw [max_eq_right]
      norm_num
    rw [hmax, Int.floor_eq_iff]
    constructor <;> norm_num
  · unfold specOctaveHalfWidth
    rw [halpha]
    have hfl : ⌊((1 : Nat) : ℝ) * (3 / 2) / 2⌋ = 0 := by
      rw [Int.floor_eq_iff]
      constructor <;> norm_num
    rw [hfl]
    norm_num

/-- C7 (amended): for every bandwidth and bin count, the precomputed
window half-width of bin k equals floor(max(k * alpha, 3) / 2) with
alpha = 2^(bw/2) - 2^(-bw/2): the minimum window width of 3 bins is
applied to the full width before halving, so the smallest possible
half-width is 1, not 3. -/
theorem octave_half_width_formula (bw : ℝ) (nBins k : Nat)
    (hk : k < nBins) :
    (octaveHalfWidths bw nBins).getD k 0 =
      ⌊max ((k : ℝ) * octaveAlpha bw) 3 / 2⌋ := by
  unfold octaveHalfWidths
  rw [List.getD_eq_getElem?_getD, List.getElem?_map, List.getElem?_range hk]
  rfl

/-- Witness for C7 (amended) at a concrete input: bandwidth 2, 8 bins,
bin 5. -/
theorem octave_half_width_formula_witness :
    (octaveHalfWidths 2 8).getD 5 0 =
      ⌊max (((5 : Nat) : ℝ) * octaveAlpha 2) 3 / 2⌋ :=
  octave_half_width_formula 2 8 5 (by decide)

/-- Both normalized deviations used by the automatic mode stay within
one fifth when the new extreme is within 20 percent of the current
bound, for a positive, negative or zero bound. -/
theorem dev_bounded (x c : ℚ) (h : |x - c| ≤ |c| / 5) :
    -(1 / 5) ≤ (x - c) / (if c = 0 then 1 else c) ∧
    (x - c) / (if c = 0 then 1 else c) ≤ 1 / 5 := by
  rcases eq_or_ne c 0 with rfl | hc
  · rw [if_pos rfl]
    have hx : x - 0 = 0 := by
      have h0 : |x - 0| ≤ 0 := by simpa using h
      exact abs_eq_zero.mp (le_antisymm h0 (abs_nonneg _))
    rw [hx]
    norm_num
  · rw [if_neg hc]
    have hcpos : 0 < |c| := abs_pos.mpr hc
    have habs : |(x - c) / c| ≤ 1 / 5 := by
      rw [abs_div, div_le_iff₀ hcpos]
      linarith
    constructor
    · linarith [neg_abs_le ((x - c) / c)]
    · linarith [le_abs_self ((x - c) / c)]

/-- Reduction of the automatic mode step when the signed deviation test
does not fire: state kept, nothing emitted. -/
theorem calc_noemit (m M : ℚ) (f : List ℚ)
    (h : ¬((npMax f - M) / (if M = 0 then 1 else M) > 1 / 5 ∨
      (npMin f - m) / (if m = 0 then 1 else m) < -(1 / 5))) :
    calcAutomaticLimits ⟨some m, some M⟩ f = (⟨some m, some M⟩, none) := by
  unfold calcAutomaticLimits
  dsimp only
  rw [if_neg h]

/-- Reduction of the automatic mode step when the signed deviation test
fires: bounds replaced and one emission with the frame extremes. -/
theorem calc_emit (m M : ℚ) (f : List ℚ)
    (h : (npMax f - M) / (if M = 0 then 1 else M) > 1 / 5 ∨
      (npMin f - m) / (if m = 0 then 1 else m) < -(1 / 5)) :
    calcAutomaticLimits ⟨some m, some M⟩ f =
      (⟨some (npMin f), some (npMax f)⟩, some (npMin f, npMax f)) := by
  unfold calcAutomaticLimits
  dsimp only
  rw [if_pos h]

/-- A frame whose extremes are within 20 percent of the current bounds
leaves the automatic mode state unchanged and emits nothing. -/
theorem calc_stable (m M : ℚ) (fr : List ℚ)
    (hmin : |npMin fr - m| ≤ |m| / 5) (hmax : |npMax fr - M| ≤ |M| / 5) :
    calcAutomaticLimits ⟨some m, some M⟩ fr = (⟨some m, some M⟩, none) := by
  have h1 := dev_bounded (npMax fr) M hmax
  have h2 := dev_bounded (npMin fr) m hmin
  apply calc_noemit
  rintro (hgt | hlt)
  · exact absurd hgt (not_lt.mpr h1.2)
  · exact absurd hlt (not_lt.mpr h2.1)

/-- Feeding only stable frames through the automatic mode produces no
emissions at all and keeps the bounds. -/
theorem run_stable (m M : ℚ) :
    ∀ frames : List (List ℚ),
      (∀ fr ∈ frames,
        calcAutomaticLimits ⟨some m, some M⟩ fr = (⟨some m, some M⟩, none)) →
      runAutomatic ⟨some m, some M⟩ frames = (⟨some m, some M⟩, []) := by
  intro frames
  induction frames with
  | nil => intro _; rfl
  | cons fr rest ih =>
    intro h
    unfold runAutomatic at ih ⊢
    rw [List.foldl_cons]
    dsimp only
    rw [h fr (List.mem_cons_self fr rest)]
    simpa using ih (fun f hf => h f (List.mem_cons_of_mem fr hf))

/-- C8 (amended): in automatic mode, after bounds m and M have been
emitted, any sequence of frames whose per-frame minimum and maximum
each stay within 20 percent of those bounds produces zero further
emissions, and a frame whose signed normalized deviation exceeds the
threshold, that is whose maximum rises more than 20 percent above the
normalized upper bound or whose minimum falls below minus 20 percent of
the normalized lower bound, produces exactly one emission carrying the
exact minimum and maximum of that frame.  Deviations are normalized by
the stored bound, or by 1 when that bound is zero, so the test is
signed: extremes shrinking away from positive bounds, or growing past
negative ones, do not trigger. -/
theorem automatic_mode_spec (m M : ℚ) (frames : List (List ℚ))
    (f : List ℚ)
    (hstable : ∀ fr ∈ frames,
      |npMin fr - m| ≤ |m| / 5 ∧ |npMax fr - M| ≤ |M| / 5)
    (hdev : (npMax f - M) / (if M = 0 then 1 else M) > 1 / 5 ∨
      (npMin f - m) / (if m = 0 then 1 else m) < -(1 / 5)) :
    runAutomatic ⟨some m, some M⟩ frames = (⟨some m, some M⟩, []) ∧
    calcAutomaticLimits ⟨some m, some M⟩ f =
      (⟨some (npMin f), some (npMax f)⟩, some (npMin f, npMax f)) := by
  constructor
  · exact run_stable m M frames
      (fun fr hfr => calc_stable m M fr (hstable fr hfr).1 (hstable fr hfr).2)
  · exact calc_emit m M f hdev

/-- Witness for C8 (amended) at concrete inputs: bounds minus 10 and
10, two stable frames, then a frame reaching 13. -/
theorem automatic_mode_spec_witness :
    runAutomatic ⟨some (-10), some 10⟩ [[-10, 10], [-9, 9]] =
      (⟨some (-10), some 10⟩, []) ∧
    calcAutomaticLimits ⟨some (-10), some 10⟩ [-10, 13] =
      (⟨some (npMin [-10, 13]), some (npMax [-10, 13])⟩,
        some (npMin [-10, 13], npMax [-10, 13])) :=
  automatic_mode_spec (-10) 10 [[-10, 10], [-9, 9]] [-10, 13]
    (by
      intro fr hfr
      rcases List.mem_cons.mp hfr with rfl | hfr
      · constructor <;> norm_num [npMin, npMax]
      · rcases List.mem_cons.mp hfr with rfl | hfr
        · constructor <;> norm_num [npMin, npMax]
        · exact absurd hfr (List.not_mem_nil fr))
    (by
      left
      norm_num [npMax])

/-- C8 counterexample: with current bounds 0 and 10, the frame with
values 0 and 5 has its maximum 50 percent below the current upper
bound, well past the 20 percent threshold, yet automatic mode emits
nothing and keeps the old bounds: the deviation test is signed and a
shrinking maximum never triggers it for a positive bound. -/
theorem automatic_mode_counterexample :
    calcAutomaticLimits ⟨some 0, some 10⟩ [0, 5] =
      (⟨some 0, some 10⟩, none) ∧
    |npMax [0, 5] - 10| > (1 / 5 : ℚ) * |10| := by
  constructor
  · apply calc_noemit
    rintro (h | h) <;> norm_num [npMax, npMin] at h
  · norm_num [npMax]

end Workbench
